import Mathlib

/-!
Verification development for the GemStrategy repository.

The repository computes a momentum ("GEM") asset-allocation recommendation:
`StooqDataFetcher._get_12m_return_stooq_cached` (src/main.py) validates a
ticker and a reference-date string, fetches a daily price series, selects a
one-year window ending one calendar month before the reference date, and
returns a percentage return together with the window boundary dates and the
windowed sub-series; `StooqDataFetcher.get_return` wraps it in an LRU memo
with full-table TTL invalidation; `StrategyService.calculate_gem_strategy`
(src/services/strategy_service.py) applies the GEM decision rule.

This file is a shallow embedding of those functions: dates are concrete
(year, month, day) triples with the Gregorian rules Python and pandas use,
prices are rationals, the network is an explicit `FetchOutcome` argument
describing what the quote source would answer, and the cache is explicit
state passing.  Each definition is translated from the Python source; the
theorems settle the frozen specification claims.
-/

namespace GemStrategy

/-- Calendar date (year, month, day); the embedding of the Python
`datetime.date` / pandas timestamp values that appear in `main.py`
(all timestamps there are at midnight, so a pure date suffices). -/
structure Date where
  year : Nat
  month : Nat
  day : Nat
deriving DecidableEq, Repr

/-- Gregorian leap-year rule, as used by Python `datetime` and pandas. -/
def isLeapYear (y : Nat) : Bool :=
  (y % 4 == 0 && y % 100 != 0) || (y % 400 == 0)

/-- Number of days in month `m` of year `y` (Gregorian calendar). -/
def daysInMonth (y m : Nat) : Nat :=
  if m = 2 then (if isLeapYear y then 29 else 28)
  else if m = 4 ∨ m = 6 ∨ m = 9 ∨ m = 11 then 30
  else 31

/-- Date comparison `a <= b`: lexicographic on (year, month, day).  This is
how pandas compares the `Data` column against the window bounds in
`df[(df["Data"] >= start_date) & (df["Data"] <= end_date)]`. -/
def dateLe (a b : Date) : Bool :=
  if a.year = b.year then
    if a.month = b.month then decide (a.day ≤ b.day)
    else decide (a.month < b.month)
  else decide (a.year < b.year)

/-- Embedding of `date - pd.DateOffset(months=1)` (main.py line 125):
move to the previous calendar month keeping the day number, clamped to the
last day of the resulting month (e.g. 2024-03-31 becomes 2024-02-29). -/
def subOneMonth (d : Date) : Date :=
  let y := if d.month = 1 then d.year - 1 else d.year
  let m := if d.month = 1 then 12 else d.month - 1
  { year := y, month := m, day := min d.day (daysInMonth y m) }

/-- Embedding of `date - pd.DateOffset(years=1)` (main.py line 126):
previous year, same month, day clamped (Feb 29 becomes Feb 28). -/
def subOneYear (d : Date) : Date :=
  { year := d.year - 1, month := d.month,
    day := min d.day (daysInMonth (d.year - 1) d.month) }

/-- Embedding of `date + pd.DateOffset(days=1)` (main.py line 126):
the next calendar day. -/
def addOneDay (d : Date) : Date :=
  if d.day < daysInMonth d.year d.month then
    { d with day := d.day + 1 }
  else if d.month < 12 then
    { year := d.year, month := d.month + 1, day := 1 }
  else
    { year := d.year + 1, month := 1, day := 1 }

/-- Split a character list at every dash, keeping empty fields, as the
dashes of the `%Y-%m-%d` format do. -/
def splitOnDash : List Char → List (List Char)
  | [] => [[]]
  | c :: rest =>
    if c = '-' then [] :: splitOnDash rest
    else
      match splitOnDash rest with
      | [] => [[c]]
      | g :: gs => (c :: g) :: gs

/-- Value of a decimal digit string. -/
def digitsToNat (cs : List Char) : Nat :=
  cs.foldl (fun n c => 10 * n + (c.toNat - 48)) 0

/-- Embedding of `datetime.strptime(s, "%Y-%m-%d")` as used by
`validate_date_string` (error_handling.py) and by the cached computation:
three dash-separated all-digit fields, the year exactly four digits,
month and day one or two digits, the month 1..12, the day fitting the
month, and the year at least 1 as `datetime` requires.  Returns the
parsed date, or `none` when parsing fails. -/
def parseDate (s : String) : Option Date :=
  match splitOnDash s.data with
  | [ys, ms, ds] =>
    if (ys.length = 4 ∧ (1 ≤ ms.length ∧ ms.length ≤ 2) ∧
          (1 ≤ ds.length ∧ ds.length ≤ 2)) ∧
        (ys ++ ms ++ ds).all Char.isDigit then
      if 1 ≤ digitsToNat ys ∧ 1 ≤ digitsToNat ms ∧ digitsToNat ms ≤ 12 ∧
          1 ≤ digitsToNat ds ∧
          digitsToNat ds ≤ daysInMonth (digitsToNat ys) (digitsToNat ms) then
        some { year := digitsToNat ys, month := digitsToNat ms,
               day := digitsToNat ds }
      else none
    else none
  | _ => none

/-- `validate_date_string` from error_handling.py: the string parses
under the `%Y-%m-%d` format. -/
def validate_date_string (s : String) : Bool :=
  (parseDate s).isSome

/-- `validate_ticker` from error_handling.py: non-empty and matching the
regular expression `[A-Za-z0-9.]+` anchored at both ends. -/
def validate_ticker (t : String) : Bool :=
  !t.data.isEmpty && t.data.all (fun c => c.isAlphanum || c == '.')

/-- `safe_divide` from error_handling.py: division that substitutes a
default value when the denominator is zero. -/
def safe_divide (numerator denominator default : ℚ) : ℚ :=
  if denominator = 0 then default else numerator / denominator

/-- One row of the price table: a date and a closing price.  Prices are
modelled as rationals (`safe_float_conversion` applied to a numeric cell
is the identity). -/
structure PricePoint where
  date : Date
  price : ℚ
deriving DecidableEq, Repr

/-- The quadruple returned by `_get_12m_return_stooq_cached`
(`return_percentage, start.date(), end.date(), records`), each component
optional exactly as in the Python `Tuple[Optional[...], ...]` signature. -/
structure ReturnResult where
  percentageReturn : Option ℚ
  windowStart : Option Date
  windowEnd : Option Date
  historicalWindow : Option (List PricePoint)
deriving DecidableEq, Repr

/-- The `(None, None, None, None)` quadruple every failure path of
`_get_12m_return_stooq_cached` returns. -/
def ReturnResult.absent : ReturnResult :=
  { percentageReturn := none, windowStart := none,
    windowEnd := none, historicalWindow := none }

/-- All four fields are absent. -/
def ReturnResult.fullyAbsent (r : ReturnResult) : Prop :=
  r.percentageReturn = none ∧ r.windowStart = none ∧
    r.windowEnd = none ∧ r.historicalWindow = none

/-- All four fields are present. -/
def ReturnResult.fullyPresent (r : ReturnResult) : Prop :=
  r.percentageReturn.isSome = true ∧ r.windowStart.isSome = true ∧
    r.windowEnd.isSome = true ∧ r.historicalWindow.isSome = true

/-- What the quote source answers when `_get_12m_return_stooq_cached`
performs its HTTP GET (main.py lines 100-113): a transport error, a
non-success status (surfaced by `raise_for_status`), a body `pd.read_csv`
cannot parse, a table missing both the `Close` column and its localized
alternate `Zamkniecie`, or a parsed table (whose row list may be empty,
the `df.empty` case). -/
inductive FetchOutcome where
  | networkError
  | badStatus
  | unparseableBody
  | missingPriceColumn
  | parsed (rows : List PricePoint)
deriving DecidableEq, Repr

/-- The five failure conditions of the fetch stage; `parsed rows` fails
exactly when the table is empty. -/
def isFailureOutcome : FetchOutcome → Bool
  | .networkError => true
  | .badStatus => true
  | .unparseableBody => true
  | .missingPriceColumn => true
  | .parsed rows => rows.isEmpty

/-- Row ordering by date, the key of `df.sort_values(by="Data")`. -/
def priceLe (a b : PricePoint) : Prop :=
  dateLe a.date b.date = true

instance : DecidableRel priceLe := fun a b => decEq (dateLe a.date b.date) true

/-- `df.sort_values(by="Data")` (main.py line 119): sort the rows by
ascending date.  The source uses the pandas default (unstable) sort, so
the order among equal dates is implementation-defined; any correct sort
is a faithful model and we use insertion sort. -/
def sortByDate (rows : List PricePoint) : List PricePoint :=
  List.insertionSort priceLe rows

/-- `end_date = reference_date - pd.DateOffset(months=1)` (line 125). -/
def windowEndOf (referenceDate : Date) : Date :=
  subOneMonth referenceDate

/-- `start_date = end_date - pd.DateOffset(years=1) + pd.DateOffset(days=1)`
(line 126). -/
def windowStartOf (referenceDate : Date) : Date :=
  addOneDay (subOneYear (windowEndOf referenceDate))

/-- `df_12m` (line 130): the sorted rows whose date lies in the inclusive
interval from `windowStartOf` to `windowEndOf`. -/
def windowedSelection (rows : List PricePoint) (referenceDate : Date) :
    List PricePoint :=
  (sortByDate rows).filter
    (fun p => dateLe (windowStartOf referenceDate) p.date &&
      dateLe p.date (windowEndOf referenceDate))

/-- Lines 117-155 of main.py: sort, select the 12-month window, reject an
empty selection or a non-positive boundary price, otherwise compute the
percentage return with `safe_divide` and package the result. -/
def computeFromSeries (rows : List PricePoint) (referenceDate : Date) :
    ReturnResult :=
  match (windowedSelection rows referenceDate).head?,
      (windowedSelection rows referenceDate).getLast? with
  | some fp, some lp =>
    if fp.price ≤ 0 ∨ lp.price ≤ 0 then ReturnResult.absent
    else
      { percentageReturn :=
          some ((safe_divide lp.price fp.price 1 - 1) * 100)
        windowStart := some fp.date
        windowEnd := some lp.date
        historicalWindow := some (windowedSelection rows referenceDate) }
  | _, _ => ReturnResult.absent

/-- `_get_12m_return_stooq_cached` (main.py lines 77-155), minus the memo
(the memo lives in `get_return` below).  `net` is what the network would
answer if the HTTP GET were issued; the returned Bool records whether the
GET was actually issued.  Every failure path returns the absent quadruple,
mirroring each `return None, None, None, None` in the source. -/
def get_12m_return_stooq_cached (ticker refDateStr : String)
    (net : FetchOutcome) : ReturnResult × Bool :=
  if ¬ validate_ticker ticker then (ReturnResult.absent, false)
  else if ¬ validate_date_string refDateStr then (ReturnResult.absent, false)
  else
    match parseDate refDateStr with
    | none => (ReturnResult.absent, false)
    | some referenceDate =>
      match net with
      | .networkError => (ReturnResult.absent, true)
      | .badStatus => (ReturnResult.absent, true)
      | .unparseableBody => (ReturnResult.absent, true)
      | .missingPriceColumn => (ReturnResult.absent, true)
      | .parsed rows =>
        if rows.isEmpty then (ReturnResult.absent, true)
        else (computeFromSeries rows referenceDate, true)

/-- The mutable state of a `StooqDataFetcher` instance (main.py lines
70-74 and the state of the `functools.lru_cache` on the method): the TTL
(`self.CACHE_TTL`), the last full-reset instant (`self.last_cache_reset`),
and the memo table of the `lru_cache(maxsize=32)`, kept most-recently-used
first.  Times are abstract instants (Nat). -/
structure FetcherState where
  cacheTTL : Nat
  lastReset : Nat
  memo : List ((String × String) × ReturnResult)
deriving DecidableEq, Repr

/-- The `maxsize=32` bound of the `lru_cache` decorator. -/
def lruMaxsize : Nat := 32

/-- Memo lookup by exact `(ticker, reference_date_str)` key. -/
def lruLookup (memo : List ((String × String) × ReturnResult))
    (k : String × String) : Option ReturnResult :=
  (memo.find? (fun e => decide (e.1 = k))).map Prod.snd

/-- The TTL check at the top of `get_return` (main.py line 159): when
strictly more than `CACHE_TTL` has elapsed since the last reset, the whole
memo is cleared (`cache_clear()`) and `last_cache_reset` becomes `now`. -/
def clearIfExpired (s : FetcherState) (now : Nat) : FetcherState :=
  if s.cacheTTL < now - s.lastReset then
    { s with memo := [], lastReset := now }
  else s

/-- `StooqDataFetcher.get_return` (main.py lines 157-163) together with
the `lru_cache` behaviour of the wrapped method: possibly clear the memo,
then consult it; on a hit return the stored quadruple (the key moves to
the most-recently-used position, no fetch); on a miss run
`_get_12m_return_stooq_cached`, store its result, evicting the
least-recently-used entry beyond `maxsize`.  Returns the new state, the
quadruple, and whether a network fetch was performed. -/
def get_return (s : FetcherState) (now : Nat) (ticker refDateStr : String)
    (net : FetchOutcome) : FetcherState × ReturnResult × Bool :=
  match lruLookup (clearIfExpired s now).memo (ticker, refDateStr) with
  | some r =>
    ({ clearIfExpired s now with
        memo := ((ticker, refDateStr), r) ::
          (clearIfExpired s now).memo.eraseP
            (fun e => decide (e.1 = (ticker, refDateStr))) },
      r, false)
  | none =>
    ({ clearIfExpired s now with
        memo := (((ticker, refDateStr),
            (get_12m_return_stooq_cached ticker refDateStr net).1) ::
          (clearIfExpired s now).memo).take lruMaxsize },
      (get_12m_return_stooq_cached ticker refDateStr net).1,
      (get_12m_return_stooq_cached ticker refDateStr net).2)

/-- The four observably distinct strings `calculate_gem_strategy` can
return (src/services/strategy_service.py): no equity data
("Brak danych do podjecia decyzji."), invest in an equity
("Zainwestuj w {name}"), invest in a bond
("Zainwestuj w {name} (ochrona kapitalu)"), and no bond data with
negative equity returns. -/
inductive StrategyRecommendation where
  | noEquityData
  | investInEquity (name : String)
  | investInBond (name : String)
  | noBondDataNegativeEquity
deriving DecidableEq, Repr

/-- The dict comprehension of strategy_service.py lines 39-42 and 61-64:
keep, in iteration order, the entries whose name is in the given set and
whose return field is not None. -/
def presentReturns (results : List (String × Option ℚ))
    (names : List String) : List (String × ℚ) :=
  results.filterMap (fun kv =>
    match kv.2 with
    | some r => if kv.1 ∈ names then some (kv.1, r) else none
    | none => none)

/-- Python `max(d, key=d.get)` over a non-empty mapping in iteration
order: scan left to right, replacing the current best only on a strictly
larger value, so ties keep the earliest entry. -/
def maxByReturn : List (String × ℚ) → Option (String × ℚ)
  | [] => none
  | x :: xs =>
    some (xs.foldl (fun best y => if best.2 < y.2 then y else best) x)

/-- `StrategyService.calculate_gem_strategy`
(src/services/strategy_service.py lines 19-79): filter the equity
entries with present returns; if none, report no equity data; otherwise
take the best equity; if its return is strictly positive invest in it;
otherwise invest in the best bond entry with a present return, or report
the no-bond-data outcome when there is none. -/
def calculate_gem_strategy (results : List (String × Option ℚ))
    (equityEtfs bondEtfs : List String) : StrategyRecommendation :=
  match maxByReturn (presentReturns results equityEtfs) with
  | none => .noEquityData
  | some best =>
    if 0 < best.2 then .investInEquity best.1
    else
      match maxByReturn (presentReturns results bondEtfs) with
      | some bestBond => .investInBond bestBond.1
      | none => .noBondDataNegativeEquity

/-- `x` has maximal value among the entries of `l`. -/
def isMaxIn (l : List (String × ℚ)) (x : String × ℚ) : Bool :=
  l.all (fun y => decide (y.2 ≤ x.2))

/-- The first entry of the list that is greater than or equal to every
entry: the specification reading of "pick the entry with the maximum
percentageReturn, ties broken by first in iteration order". -/
def firstMaxEntry (l : List (String × ℚ)) : Option (String × ℚ) :=
  l.find? (isMaxIn l)

/-- The StrategySelector contract as the specification words it
(spec section 4.4), with the maximum picked by `firstMaxEntry`: used to
compare the source selector against the stated decision rule. -/
def selectGemSpec (results : List (String × Option ℚ))
    (equitySet bondSet : List String) : StrategyRecommendation :=
  match firstMaxEntry (presentReturns results equitySet) with
  | none => .noEquityData
  | some best =>
    if 0 < best.2 then .investInEquity best.1
    else
      match firstMaxEntry (presentReturns results bondSet) with
      | some bestBond => .investInBond bestBond.1
      | none => .noBondDataNegativeEquity

instance : IsTotal PricePoint priceLe :=
  ⟨by
    intro a b
    by_cases h : dateLe a.date b.date = true
    · exact Or.inl h
    · right
      simp only [priceLe, dateLe] at h ⊢
      split_ifs at h ⊢ <;> simp_all <;> omega⟩

instance : IsTrans PricePoint priceLe :=
  ⟨by
    intro a b c hab hbc
    simp only [priceLe, dateLe] at hab hbc ⊢
    split_ifs at hab hbc ⊢ <;> simp_all <;> omega⟩

/-- Every quadruple stored in the memo has its four fields jointly
present or jointly absent; the states reachable from a fresh
`StooqDataFetcher` all satisfy this. -/
def memoWF (s : FetcherState) : Prop :=
  ∀ e ∈ s.memo, ReturnResult.fullyPresent e.2 ∨ ReturnResult.fullyAbsent e.2

/-- The error reports the fetch stage of `_get_12m_return_stooq_cached`
declares (main.py lines 100-113): the `except RequestException` handler
("Network error while fetching ..."), the generic `except Exception`
handler ("Data processing error ..."), and the combined
`df.empty or missing close column` check ("No data or invalid format
...").  The first handler is dead code on this path: the fetch uses
`curl_cffi` (main.py line 9), whose transport errors and whose
`raise_for_status` HTTPError belong to its own exception hierarchy, not
to the `requests.exceptions.RequestException` imported at main.py line
10, so nothing raised inside the `try` matches that handler and
`networkErrorLog` is never emitted. -/
inductive ReportTag where
  | networkErrorLog
  | dataProcessingLog
  | noDataLog
deriving DecidableEq, Repr

/-- Which report each fetch outcome triggers, following the handler
structure of the source: transport errors, the bad-status error raised
by `raise_for_status` and an unparseable body are all curl_cffi or
pandas exceptions, none an instance of the caught
`requests.exceptions.RequestException`, so all three fall through to
the generic `except Exception` handler and share its report; a missing
price column and an empty table share the single
`df.empty or (no Close and no Zamkniecie)` branch.  A parsed non-empty
table emits no report. -/
def reportedTag : FetchOutcome → Option ReportTag
  | .networkError => some .dataProcessingLog
  | .badStatus => some .dataProcessingLog
  | .unparseableBody => some .dataProcessingLog
  | .missingPriceColumn => some .noDataLog
  | .parsed rows => if rows.isEmpty then some .noDataLog else none

/-! ## Theorems -/

/-- The selection kept by the window filter is a permutation of the
in-window rows of the raw series. -/
theorem windowedSelection_perm (rows : List PricePoint) (ref : Date) :
    (windowedSelection rows ref).Perm
      (rows.filter (fun p => dateLe (windowStartOf ref) p.date &&
        dateLe p.date (windowEndOf ref))) := by
  unfold windowedSelection sortByDate
  exact (List.perm_insertionSort priceLe rows).filter _

/-- The selection kept by the window filter is in ascending date order. -/
theorem windowedSelection_sorted (rows : List PricePoint) (ref : Date) :
    (windowedSelection rows ref).Pairwise priceLe := by
  unfold windowedSelection sortByDate
  exact List.Pairwise.sublist (List.filter_sublist _)
    (List.sorted_insertionSort priceLe rows)

/-- C1: for every price series and reference date, the return computation
uses the window ending exactly one calendar month before the reference
date and starting one calendar year earlier plus one day; it selects
exactly the price points with dates inside the inclusive window, in
ascending date order; and when the selection is non-empty with positive
boundary prices, the percentage return equals
(lastPrice / firstPrice - 1) * 100 exactly, with the first and last
selected dates and the selected sub-series alongside it. -/
theorem return_window_selection_and_formula
    (rows : List PricePoint) (ref : Date) (fp lp : PricePoint)
    (hfp : (windowedSelection rows ref).head? = some fp)
    (hlp : (windowedSelection rows ref).getLast? = some lp)
    (hfpos : 0 < fp.price) (hlpos : 0 < lp.price) :
    (windowedSelection rows ref).Perm
      (rows.filter (fun p => dateLe (windowStartOf ref) p.date &&
        dateLe p.date (windowEndOf ref))) ∧
    (windowedSelection rows ref).Pairwise priceLe ∧
    computeFromSeries rows ref =
      { percentageReturn := some ((lp.price / fp.price - 1) * 100),
        windowStart := some fp.date,
        windowEnd := some lp.date,
        historicalWindow := some (windowedSelection rows ref) } := by
  refine ⟨windowedSelection_perm rows ref, windowedSelection_sorted rows ref, ?_⟩
  have hcond : ¬ (fp.price ≤ 0 ∨ lp.price ≤ 0) := by
    push_neg
    exact ⟨hfpos, hlpos⟩
  have hdiv : safe_divide lp.price fp.price 1 = lp.price / fp.price := by
    unfold safe_divide
    rw [if_neg (ne_of_gt hfpos)]
  simp only [computeFromSeries, hfp, hlp, if_neg hcond, hdiv]

/-- Witness for C1 on a concrete two-point series: reference date
2024-04-15 gives the window 2023-03-16 .. 2024-03-15, both points are
selected, and the return is (110/100 - 1) * 100. -/
theorem return_window_selection_and_formula_witness :
    (windowedSelection
        [⟨⟨2023, 6, 1⟩, 100⟩, ⟨⟨2024, 3, 1⟩, 110⟩] ⟨2024, 4, 15⟩).head? =
      some ⟨⟨2023, 6, 1⟩, 100⟩ ∧
    (windowedSelection
        [⟨⟨2023, 6, 1⟩, 100⟩, ⟨⟨2024, 3, 1⟩, 110⟩] ⟨2024, 4, 15⟩).getLast? =
      some ⟨⟨2024, 3, 1⟩, 110⟩ ∧
    computeFromSeries
        [⟨⟨2023, 6, 1⟩, 100⟩, ⟨⟨2024, 3, 1⟩, 110⟩] ⟨2024, 4, 15⟩ =
      { percentageReturn := some (((110 : ℚ) / 100 - 1) * 100),
        windowStart := some ⟨2023, 6, 1⟩,
        windowEnd := some ⟨2024, 3, 1⟩,
        historicalWindow := some (windowedSelection
          [⟨⟨2023, 6, 1⟩, 100⟩, ⟨⟨2024, 3, 1⟩, 110⟩] ⟨2024, 4, 15⟩) } := by
  have h1 : (windowedSelection
      [⟨⟨2023, 6, 1⟩, 100⟩, ⟨⟨2024, 3, 1⟩, 110⟩] ⟨2024, 4, 15⟩).head? =
      some ⟨⟨2023, 6, 1⟩, 100⟩ := by decide
  have h2 : (windowedSelection
      [⟨⟨2023, 6, 1⟩, 100⟩, ⟨⟨2024, 3, 1⟩, 110⟩] ⟨2024, 4, 15⟩).getLast? =
      some ⟨⟨2024, 3, 1⟩, 110⟩ := by decide
  exact ⟨h1, h2,
    (return_window_selection_and_formula _ _ _ _ h1 h2 (by norm_num) (by norm_num)).2.2⟩

/-- C3: the computed return result is fully absent exactly when the
windowed selection is empty or a boundary price is non-positive, and it
is fully present exactly when the window holds at least one point and
both boundary prices are strictly positive. -/
theorem computeFromSeries_absent_iff (rows : List PricePoint) (ref : Date) :
    (ReturnResult.fullyAbsent (computeFromSeries rows ref) ↔
      windowedSelection rows ref = [] ∨
      ∃ fp lp, (windowedSelection rows ref).head? = some fp ∧
        (windowedSelection rows ref).getLast? = some lp ∧
        (fp.price ≤ 0 ∨ lp.price ≤ 0)) ∧
    (ReturnResult.fullyPresent (computeFromSeries rows ref) ↔
      ∃ fp lp, (windowedSelection rows ref).head? = some fp ∧
        (windowedSelection rows ref).getLast? = some lp ∧
        0 < fp.price ∧ 0 < lp.price) := by
  cases hh : (windowedSelection rows ref).head? with
  | none =>
    have hnil : windowedSelection rows ref = [] :=
      List.head?_eq_none_iff.mp hh
    have hl : (windowedSelection rows ref).getLast? = none := by
      rw [hnil]
      rfl
    have habs : computeFromSeries rows ref = ReturnResult.absent := by
      simp only [computeFromSeries, hh, hl]
    rw [habs]
    constructor
    · constructor
      · intro _
        exact Or.inl hnil
      · intro _
        exact ⟨rfl, rfl, rfl, rfl⟩
    · constructor
      · intro hpres
        obtain ⟨h1, -, -, -⟩ := hpres
        exact absurd h1 (by simp [ReturnResult.absent])
      · rintro ⟨fp, lp, hfp, -, -⟩
        exact absurd hfp (by simp)
  | some fp =>
    have hne : windowedSelection rows ref ≠ [] := by
      intro hnil
      rw [hnil] at hh
      exact absurd hh (by simp)
    cases hl : (windowedSelection rows ref).getLast? with
    | none =>
      exact absurd (List.getLast?_eq_none_iff.mp hl) hne
    | some lp =>
      by_cases hc : fp.price ≤ 0 ∨ lp.price ≤ 0
      · have habs : computeFromSeries rows ref = ReturnResult.absent := by
          simp only [computeFromSeries, hh, hl, if_pos hc]
        rw [habs]
        constructor
        · constructor
          · intro _
            exact Or.inr ⟨fp, lp, rfl, rfl, hc⟩
          · intro _
            exact ⟨rfl, rfl, rfl, rfl⟩
        · constructor
          · intro hpres
            obtain ⟨h1, -, -, -⟩ := hpres
            exact absurd h1 (by simp [ReturnResult.absent])
          · rintro ⟨fp', lp', hfp', hlp', hpos, hpos'⟩
            injection hfp' with hfp'
            injection hlp' with hlp'
            subst hfp'
            subst hlp'
            rcases hc with hc | hc
            · exact absurd hpos (not_lt.mpr hc)
            · exact absurd hpos' (not_lt.mpr hc)
      · have hcond : ¬ (fp.price ≤ 0 ∨ lp.price ≤ 0) := hc
        push_neg at hc
        have hsome : computeFromSeries rows ref =
            { percentageReturn :=
                some ((safe_divide lp.price fp.price 1 - 1) * 100),
              windowStart := some fp.date,
              windowEnd := some lp.date,
              historicalWindow := some (windowedSelection rows ref) } := by
          simp only [computeFromSeries, hh, hl, if_neg hcond]
        rw [hsome]
        constructor
        · constructor
          · intro habs
            obtain ⟨h1, -, -, -⟩ := habs
            exact absurd h1 (by simp)
          · rintro (hnil | ⟨fp', lp', hfp', hlp', hle⟩)
            · exact absurd hnil hne
            · injection hfp' with hfp'
              injection hlp' with hlp'
              subst hfp'
              subst hlp'
              rcases hle with hle | hle
              · exact absurd hc.1 (not_lt.mpr hle)
              · exact absurd hc.2 (not_lt.mpr hle)
        · constructor
          · intro _
            exact ⟨fp, lp, rfl, rfl, hc⟩
          · intro _
            exact ⟨rfl, rfl, rfl, rfl⟩

/-- Entries of the list are bounded by a maximal entry. -/
theorem isMaxIn_mem_le {l : List (String × ℚ)} {x z : String × ℚ}
    (h : isMaxIn l x = true) (hz : z ∈ l) : z.2 ≤ x.2 := by
  have := List.all_eq_true.mp h z hz
  simpa using this

/-- An entry bounding every element of the list is maximal in it. -/
theorem isMaxIn_of_forall {l : List (String × ℚ)} {x : String × ℚ}
    (h : ∀ z ∈ l, z.2 ≤ x.2) : isMaxIn l x = true :=
  List.all_eq_true.mpr (fun z hz => by simpa using h z hz)

/-- `find?` only depends on the values of the predicate on the list. -/
theorem find?_congr_on (p q : (String × ℚ) → Bool) (l : List (String × ℚ))
    (h : ∀ a ∈ l, p a = q a) : l.find? p = l.find? q := by
  induction l with
  | nil => rfl
  | cons a as ih =>
    have ha : p a = q a := h a (List.mem_cons_self a as)
    cases hpa : p a with
    | true =>
      rw [List.find?_cons_of_pos _ hpa, List.find?_cons_of_pos _ (ha ▸ hpa)]
    | false =>
      rw [List.find?_cons_of_neg _ (by simp [hpa]),
        List.find?_cons_of_neg _ (by simp [← ha, hpa])]
      exact ih (fun b hb => h b (List.mem_cons_of_mem a hb))

/-- The left-to-right fold that keeps the current best unless a strictly
larger value appears (the behaviour of Python max over a dict in
iteration order) returns exactly the first entry that bounds the whole
list. -/
theorem foldlMax_eq_firstMax :
    ∀ (xs : List (String × ℚ)) (x : String × ℚ),
      (x :: xs).find? (isMaxIn (x :: xs)) =
        some (xs.foldl (fun best y => if best.2 < y.2 then y else best) x)
  | [], x => by
    rw [List.find?_cons_of_pos _ (isMaxIn_of_forall (by
      intro z hz
      simp at hz
      rw [hz]))]
    rfl
  | y :: ys, x => by
    by_cases hxy : x.2 < y.2
    · have hPx : isMaxIn (x :: y :: ys) x = false := by
        cases hb : isMaxIn (x :: y :: ys) x with
        | false => rfl
        | true =>
          exact absurd (isMaxIn_mem_le hb (by simp)) (not_le.mpr hxy)
      have hagree : ∀ z ∈ y :: ys,
          isMaxIn (x :: y :: ys) z = isMaxIn (y :: ys) z := by
        intro z hz
        cases hb : isMaxIn (y :: ys) z with
        | true =>
          have hyz : y.2 ≤ z.2 := isMaxIn_mem_le hb (by simp)
          exact isMaxIn_of_forall (by
            intro w hw
            rcases List.mem_cons.mp hw with hw | hw
            · rw [hw]
              exact le_of_lt (lt_of_lt_of_le hxy hyz)
            · exact isMaxIn_mem_le hb hw)
        | false =>
          cases hb' : isMaxIn (x :: y :: ys) z with
          | false => rfl
          | true =>
            have hup : isMaxIn (y :: ys) z = true :=
              isMaxIn_of_forall (fun w hw =>
                isMaxIn_mem_le hb' (List.mem_cons_of_mem x hw))
            rw [hup] at hb
            cases hb
      rw [List.find?_cons_of_neg _ (by simp [hPx]),
        find?_congr_on _ _ _ hagree, foldlMax_eq_firstMax ys y]
      simp [List.foldl_cons, if_pos hxy]
    · have hyx : y.2 ≤ x.2 := not_lt.mp hxy
      have hx_eq : isMaxIn (x :: y :: ys) x = isMaxIn (x :: ys) x := by
        cases hb : isMaxIn (x :: ys) x with
        | true =>
          exact isMaxIn_of_forall (by
            intro w hw
            rcases List.mem_cons.mp hw with hw | hw
            · rw [hw]
            · rcases List.mem_cons.mp hw with hw | hw
              · rw [hw]
                exact hyx
              · exact isMaxIn_mem_le hb (List.mem_cons_of_mem x hw))
        | false =>
          cases hb' : isMaxIn (x :: y :: ys) x with
          | false => rfl
          | true =>
            have hup : isMaxIn (x :: ys) x = true :=
              isMaxIn_of_forall (by
                intro w hw
                rcases List.mem_cons.mp hw with hw | hw
                · rw [hw]
                · exact isMaxIn_mem_le hb'
                    (List.mem_cons_of_mem x (List.mem_cons_of_mem y hw)))
            rw [hup] at hb
            cases hb
      cases hPx : isMaxIn (x :: ys) x with
      | true =>
        rw [List.find?_cons_of_pos _ (by rw [hx_eq]; exact hPx)]
        have hrec := foldlMax_eq_firstMax ys x
        rw [List.find?_cons_of_pos _ hPx] at hrec
        simpa [List.foldl_cons, if_neg hxy] using hrec
      | false =>
        have hPy : isMaxIn (x :: y :: ys) y = false := by
          cases hb : isMaxIn (x :: y :: ys) y with
          | false => rfl
          | true =>
            have hxley : x.2 ≤ y.2 := isMaxIn_mem_le hb (by simp)
            have hxeqy : x.2 = y.2 := le_antisymm hxley hyx
            have hup : isMaxIn (x :: ys) x = true :=
              isMaxIn_of_forall (by
                intro w hw
                rcases List.mem_cons.mp hw with hw | hw
                · rw [hw]
                · have hwy : w.2 ≤ y.2 := isMaxIn_mem_le hb
                    (List.mem_cons_of_mem x (List.mem_cons_of_mem y hw))
                  rw [hxeqy]
                  exact hwy)
            rw [hup] at hPx
            cases hPx
        have hagree : ∀ z ∈ ys,
            isMaxIn (x :: y :: ys) z = isMaxIn (x :: ys) z := by
          intro z hz
          cases hb : isMaxIn (x :: ys) z with
          | true =>
            have hxz : x.2 ≤ z.2 := isMaxIn_mem_le hb (by simp)
            exact isMaxIn_of_forall (by
              intro w hw
              rcases List.mem_cons.mp hw with hw | hw
              · rw [hw]
                exact hxz
              · rcases List.mem_cons.mp hw with hw | hw
                · rw [hw]
                  exact le_trans hyx hxz
                · exact isMaxIn_mem_le hb (List.mem_cons_of_mem x hw))
          | false =>
            cases hb' : isMaxIn (x :: y :: ys) z with
            | false => rfl
            | true =>
              have hup : isMaxIn (x :: ys) z = true :=
                isMaxIn_of_forall (by
                  intro w hw
                  rcases List.mem_cons.mp hw with hw | hw
                  · rw [hw]
                    exact isMaxIn_mem_le hb' (by simp)
                  · exact isMaxIn_mem_le hb'
                      (List.mem_cons_of_mem x (List.mem_cons_of_mem y hw)))
              rw [hup] at hb
              cases hb
        have hchain := foldlMax_eq_firstMax ys x
        rw [List.find?_cons_of_neg _ (by simp [hPx])] at hchain
        rw [List.find?_cons_of_neg _ (by rw [hx_eq]; simp [hPx]),
          List.find?_cons_of_neg _ (by simp [hPy]),
          find?_congr_on _ _ _ hagree, hchain]
        simp [List.foldl_cons, if_neg hxy]

/-- Python max in iteration order agrees with the first-maximal-entry
specification rule. -/
theorem maxByReturn_eq_firstMaxEntry (l : List (String × ℚ)) :
    maxByReturn l = firstMaxEntry l := by
  cases l with
  | nil => rfl
  | cons x xs =>
    unfold maxByReturn firstMaxEntry
    exact (foldlMax_eq_firstMax xs x).symm

/-- C2: the GEM selector of the source agrees with the specification
selector on every input: no present equity return gives the no-equity
outcome regardless of bonds; otherwise the first maximal present equity
return decides, investing in that equity when strictly positive, and
otherwise in the first maximal present bond return when one exists, with
the no-bond outcome when none does. -/
theorem gem_strategy_matches_spec (results : List (String × Option ℚ))
    (equityEtfs bondEtfs : List String) :
    calculate_gem_strategy results equityEtfs bondEtfs =
      selectGemSpec results equityEtfs bondEtfs := by
  unfold calculate_gem_strategy selectGemSpec
  simp only [maxByReturn_eq_firstMaxEntry]

/-- Reduction of `get_return` on a memo hit. -/
theorem get_return_hit (s : FetcherState) (now : Nat) (t d : String)
    (net : FetchOutcome) (r : ReturnResult)
    (h : lruLookup (clearIfExpired s now).memo (t, d) = some r) :
    get_return s now t d net =
      ({ clearIfExpired s now with
          memo := ((t, d), r) :: (clearIfExpired s now).memo.eraseP
            (fun e => decide (e.1 = (t, d))) },
        r, false) := by
  unfold get_return
  rw [h]

/-- Reduction of `get_return` on a memo miss. -/
theorem get_return_miss (s : FetcherState) (now : Nat) (t d : String)
    (net : FetchOutcome)
    (h : lruLookup (clearIfExpired s now).memo (t, d) = none) :
    get_return s now t d net =
      ({ clearIfExpired s now with
          memo := (((t, d), (get_12m_return_stooq_cached t d net).1) ::
            (clearIfExpired s now).memo).take lruMaxsize },
        (get_12m_return_stooq_cached t d net).1,
        (get_12m_return_stooq_cached t d net).2) := by
  unfold get_return
  rw [h]

/-- Looking up the key sitting at the front of the memo. -/
theorem lruLookup_cons_self (k : String × String) (r : ReturnResult)
    (rest : List ((String × String) × ReturnResult)) :
    lruLookup ((k, r) :: rest) k = some r := by
  unfold lruLookup
  rw [List.find?_cons_of_pos _ (by simp)]
  rfl

/-- A successful memo lookup returns the value of some stored entry. -/
theorem lruLookup_mem {memo : List ((String × String) × ReturnResult)}
    {k : String × String} {r : ReturnResult}
    (h : lruLookup memo k = some r) : ∃ e ∈ memo, e.2 = r := by
  unfold lruLookup at h
  cases hf : memo.find? (fun e => decide (e.1 = k)) with
  | none =>
    rw [hf] at h
    cases h
  | some e =>
    rw [hf] at h
    injection h with h
    exact ⟨e, List.mem_of_find?_eq_some hf, h⟩

/-- After any `get_return` call, the key just used sits at the front of
the memo, bound to the result the call returned. -/
theorem get_return_memo_head (s : FetcherState) (now : Nat) (t d : String)
    (net : FetchOutcome) :
    ∃ rest, (get_return s now t d net).1.memo =
      ((t, d), (get_return s now t d net).2.1) :: rest := by
  cases hl : lruLookup (clearIfExpired s now).memo (t, d) with
  | some r =>
    rw [get_return_hit s now t d net r hl]
    exact ⟨_, rfl⟩
  | none =>
    rw [get_return_miss s now t d net hl]
    refine ⟨(clearIfExpired s now).memo.take 31, ?_⟩
    rw [show lruMaxsize = 31 + 1 from rfl, List.take_succ_cons]

/-- The window calculator returns a fully present or fully absent
quadruple, never a mixed one. -/
theorem computeFromSeries_joint (rows : List PricePoint) (ref : Date) :
    ReturnResult.fullyPresent (computeFromSeries rows ref) ∨
      ReturnResult.fullyAbsent (computeFromSeries rows ref) := by
  unfold computeFromSeries
  split
  · split_ifs
    · right
      exact ⟨rfl, rfl, rfl, rfl⟩
    · left
      exact ⟨rfl, rfl, rfl, rfl⟩
  · right
    exact ⟨rfl, rfl, rfl, rfl⟩

/-- The cached computation returns a fully present or fully absent
quadruple, never a mixed one. -/
theorem compute_joint (t d : String) (net : FetchOutcome) :
    ReturnResult.fullyPresent (get_12m_return_stooq_cached t d net).1 ∨
      ReturnResult.fullyAbsent (get_12m_return_stooq_cached t d net).1 := by
  unfold get_12m_return_stooq_cached
  split_ifs
  all_goals try (right; exact ⟨rfl, rfl, rfl, rfl⟩)
  split
  all_goals try (right; exact ⟨rfl, rfl, rfl, rfl⟩)
  split
  all_goals try (right; exact ⟨rfl, rfl, rfl, rfl⟩)
  split_ifs
  all_goals try (right; exact ⟨rfl, rfl, rfl, rfl⟩)
  exact computeFromSeries_joint _ _

/-- When both validations pass, the cached computation issues exactly
its one network fetch, whatever the network answers. -/
theorem compute_fetches_when_valid (t d : String) (net : FetchOutcome)
    (hvt : validate_ticker t = true) (hvd : validate_date_string d = true) :
    (get_12m_return_stooq_cached t d net).2 = true := by
  unfold get_12m_return_stooq_cached
  rw [if_neg (by simp [hvt]), if_neg (by simp [hvd])]
  split
  · rename_i hnone
    have hvd' : (parseDate d).isSome = true := hvd
    rw [hnone] at hvd'
    cases hvd'
  · split
    · rfl
    · rfl
    · rfl
    · rfl
    · split_ifs
      · rfl
      · rfl

/-- Every validation failure and every fetch failure condition makes the
cached computation return the fully absent quadruple. -/
theorem compute_absent_of_failure (t d : String) (net : FetchOutcome)
    (h : ¬ validate_ticker t = true ∨ ¬ validate_date_string d = true ∨
      isFailureOutcome net = true) :
    (get_12m_return_stooq_cached t d net).1 = ReturnResult.absent := by
  unfold get_12m_return_stooq_cached
  by_cases hvt : ¬ validate_ticker t = true
  · rw [if_pos hvt]
  · rw [if_neg hvt]
    by_cases hvd : ¬ validate_date_string d = true
    · rw [if_pos hvd]
    · rw [if_neg hvd]
      have hf : isFailureOutcome net = true := by
        rcases h with h | h | h
        · exact absurd h hvt
        · exact absurd h hvd
        · exact h
      split
      · rfl
      · split
        · rfl
        · rfl
        · rfl
        · rfl
        · rename_i rows
          have he : rows.isEmpty = true := hf
          rw [if_pos he]

/-- C4: every result returned by the cached return computation and by
`get_return` has its four fields jointly present or jointly absent, and
this joint discipline is preserved by the memo across calls, so no
reachable outcome mixes present and absent fields. -/
theorem results_jointly_present_or_absent (s : FetcherState) (now : Nat)
    (t d : String) (net : FetchOutcome) (hwf : memoWF s) :
    (ReturnResult.fullyPresent (get_12m_return_stooq_cached t d net).1 ∨
      ReturnResult.fullyAbsent (get_12m_return_stooq_cached t d net).1) ∧
    (ReturnResult.fullyPresent (get_return s now t d net).2.1 ∨
      ReturnResult.fullyAbsent (get_return s now t d net).2.1) ∧
    memoWF (get_return s now t d net).1 := by
  have hwf' : memoWF (clearIfExpired s now) := by
    unfold clearIfExpired
    split_ifs
    · intro e he
      exact absurd he (List.not_mem_nil e)
    · exact hwf
  cases hl : lruLookup (clearIfExpired s now).memo (t, d) with
  | some r =>
    obtain ⟨e, hmem, he⟩ := lruLookup_mem hl
    have hjr : ReturnResult.fullyPresent r ∨ ReturnResult.fullyAbsent r :=
      he ▸ hwf' e hmem
    rw [get_return_hit s now t d net r hl]
    refine ⟨compute_joint t d net, hjr, ?_⟩
    intro e' he'
    rcases List.mem_cons.mp he' with he' | he'
    · rw [he']
      exact hjr
    · exact hwf' e' ((List.eraseP_sublist _).subset he')
  | none =>
    rw [get_return_miss s now t d net hl]
    refine ⟨compute_joint t d net, compute_joint t d net, ?_⟩
    intro e' he'
    rcases List.mem_cons.mp (List.mem_of_mem_take he') with he' | he'
    · rw [he']
      exact compute_joint t d net
    · exact hwf' e' he'

/-- Witness for C4: starting from a fresh fetcher state, the memo
discipline holds before and after a call. -/
theorem results_jointly_present_or_absent_witness :
    memoWF { cacheTTL := 4, lastReset := 0, memo := [] } ∧
    memoWF (get_return { cacheTTL := 4, lastReset := 0, memo := [] } 0
      "spy.us" "2024-05-01" FetchOutcome.missingPriceColumn).1 :=
  have h : memoWF { cacheTTL := 4, lastReset := 0, memo := [] } := by
    intro e he
    exact absurd he (List.not_mem_nil e)
  ⟨h, (results_jointly_present_or_absent _ 0 "spy.us" "2024-05-01"
      FetchOutcome.missingPriceColumn h).2.2⟩

/-- C5: two consecutive `get_return` calls with identical
(ticker, date-string) arguments, the second within the TTL window,
return identical results and the second call performs no fetch. -/
theorem cache_idempotent_within_ttl (s0 : FetcherState) (t1 t2 : Nat)
    (tk d : String) (net : FetchOutcome)
    (h : ¬ ((get_return s0 t1 tk d net).1.cacheTTL <
        t2 - (get_return s0 t1 tk d net).1.lastReset)) :
    (get_return (get_return s0 t1 tk d net).1 t2 tk d net).2.1 =
      (get_return s0 t1 tk d net).2.1 ∧
    (get_return (get_return s0 t1 tk d net).1 t2 tk d net).2.2 = false := by
  obtain ⟨rest, hm⟩ := get_return_memo_head s0 t1 tk d net
  have hclear : clearIfExpired (get_return s0 t1 tk d net).1 t2 =
      (get_return s0 t1 tk d net).1 := by
    unfold clearIfExpired
    rw [if_neg h]
  have hl : lruLookup
      (clearIfExpired (get_return s0 t1 tk d net).1 t2).memo (tk, d) =
      some ((get_return s0 t1 tk d net).2.1) := by
    rw [hclear, hm]
    exact lruLookup_cons_self _ _ _
  rw [get_return_hit _ _ _ _ _ _ hl]
  exact ⟨rfl, rfl⟩

/-- Witness for C5: a concrete pair of back-to-back calls for the same
key inside the TTL window. -/
theorem cache_idempotent_within_ttl_witness :
    ¬ ((get_return ⟨4, 0, []⟩ 0 "spy.us" "2024-05-01"
        FetchOutcome.networkError).1.cacheTTL <
      1 - (get_return ⟨4, 0, []⟩ 0 "spy.us" "2024-05-01"
        FetchOutcome.networkError).1.lastReset) ∧
    (get_return (get_return ⟨4, 0, []⟩ 0 "spy.us" "2024-05-01"
        FetchOutcome.networkError).1 1 "spy.us" "2024-05-01"
        FetchOutcome.networkError).2.1 =
      (get_return ⟨4, 0, []⟩ 0 "spy.us" "2024-05-01"
        FetchOutcome.networkError).2.1 ∧
    (get_return (get_return ⟨4, 0, []⟩ 0 "spy.us" "2024-05-01"
        FetchOutcome.networkError).1 1 "spy.us" "2024-05-01"
        FetchOutcome.networkError).2.2 = false :=
  ⟨by decide, cache_idempotent_within_ttl ⟨4, 0, []⟩ 0 1 "spy.us"
    "2024-05-01" FetchOutcome.networkError (by decide)⟩

/-- C6 counterexample: a key whose ticker fails validation can sit in
the memo (it was cached as fully absent without a fetch); after the TTL
elapses, the call for that previously cached key performs the clear but
triggers no fetch at all, not exactly one, even though the network would
now answer with data. -/
theorem ttl_expired_cached_key_no_fetch_counterexample :
    (4 : Nat) < 10 - 0 ∧
    lruLookup [(("ABC$", "2024-01-31"), ReturnResult.absent)]
      ("ABC$", "2024-01-31") = some ReturnResult.absent ∧
    (get_return ⟨4, 0, [(("ABC$", "2024-01-31"), ReturnResult.absent)]⟩
      10 "ABC$" "2024-01-31"
      (FetchOutcome.parsed [⟨⟨2024, 1, 2⟩, 100⟩])).2.2 = false := by
  refine ⟨by decide, by decide, by decide⟩

/-- C6 (amended): on any call with the TTL strictly exceeded, the memo
is cleared and the reset instant updated before the memo is consulted or
populated: the stale entry for the key is ignored, the result is a fresh
computation, and the new memo holds only this call; when the key passes
both validations the call triggers exactly its one fresh fetch. -/
theorem ttl_clear_before_consult (s : FetcherState) (now : Nat)
    (t d : String) (net : FetchOutcome) (r0 : ReturnResult)
    (hexp : s.cacheTTL < now - s.lastReset)
    (hcached : lruLookup s.memo (t, d) = some r0)
    (hvt : validate_ticker t = true) (hvd : validate_date_string d = true) :
    (get_return s now t d net).1.lastReset = now ∧
    (get_return s now t d net).1.memo =
      [((t, d), (get_12m_return_stooq_cached t d net).1)] ∧
    (get_return s now t d net).2.1 = (get_12m_return_stooq_cached t d net).1 ∧
    (get_return s now t d net).2.2 = true := by
  have hclear : clearIfExpired s now =
      { s with memo := [], lastReset := now } := by
    unfold clearIfExpired
    rw [if_pos hexp]
  have hmiss : lruLookup (clearIfExpired s now).memo (t, d) = none := by
    rw [hclear]
    rfl
  rw [get_return_miss s now t d net hmiss, hclear]
  exact ⟨rfl, rfl, rfl, compute_fetches_when_valid t d net hvt hvd⟩

/-- Witness for the amended C6: a valid previously cached key after TTL
expiry is refetched exactly once. -/
theorem ttl_clear_before_consult_witness :
    (4 : Nat) < 10 - 0 ∧
    lruLookup [(("spy.us", "2024-05-01"), ReturnResult.absent)]
      ("spy.us", "2024-05-01") = some ReturnResult.absent ∧
    (get_return ⟨4, 0, [(("spy.us", "2024-05-01"), ReturnResult.absent)]⟩
      10 "spy.us" "2024-05-01" FetchOutcome.networkError).2.2 = true :=
  ⟨by decide, by decide,
    (ttl_clear_before_consult
      ⟨4, 0, [(("spy.us", "2024-05-01"), ReturnResult.absent)]⟩ 10
      "spy.us" "2024-05-01" FetchOutcome.networkError ReturnResult.absent
      (by decide) (by decide) (by decide) (by decide)).2.2.2⟩

/-- C7: a ticker failing the `[A-Za-z0-9.]+` pattern or a date string
that does not parse as a valid date is rejected by the computation with
the fully absent quadruple and no network call, and a `get_return` call
that reaches the computation (a memo miss after the possible clear)
behaves the same. -/
theorem invalid_inputs_rejected_without_fetch (t d : String)
    (net : FetchOutcome) (s : FetcherState) (now : Nat)
    (hv : ¬ validate_ticker t = true ∨ ¬ validate_date_string d = true)
    (hmiss : lruLookup (clearIfExpired s now).memo (t, d) = none) :
    get_12m_return_stooq_cached t d net = (ReturnResult.absent, false) ∧
    (get_return s now t d net).2 = (ReturnResult.absent, false) := by
  have hc : get_12m_return_stooq_cached t d net =
      (ReturnResult.absent, false) := by
    unfold get_12m_return_stooq_cached
    by_cases hvt : ¬ validate_ticker t = true
    · rw [if_pos hvt]
    · rcases hv with hv | hv
      · exact absurd hv hvt
      · rw [if_neg hvt, if_pos hv]
  refine ⟨hc, ?_⟩
  rw [get_return_miss s now t d net hmiss, hc]

/-- Witness for C7: the bad ticker together with the bad date of the
specification examples, rejected on a fresh state. -/
theorem invalid_inputs_rejected_without_fetch_witness :
    (¬ validate_ticker "ABC$" = true ∨
      ¬ validate_date_string "2024-13-40" = true) ∧
    (get_return ⟨4, 0, []⟩ 0 "ABC$" "2024-13-40"
      (FetchOutcome.parsed [])).2 = (ReturnResult.absent, false) :=
  ⟨Or.inl (by decide),
    (invalid_inputs_rejected_without_fetch "ABC$" "2024-13-40"
      (FetchOutcome.parsed []) ⟨4, 0, []⟩ 0 (Or.inl (by decide)) rfl).2⟩

/-- C8: for every input, every fetch failure outcome and every
validation failure, the cached computation terminates with the fully
absent quadruple (the source catches every exception of the fetch and
computation paths and returns the absent tuple, so nothing escapes this
total function; only the strategy selector may raise, on malformed
inputs that the typed model cannot express). -/
theorem failures_become_absent_results (t d : String) (net : FetchOutcome)
    (s : FetcherState) (now : Nat)
    (h : ¬ validate_ticker t = true ∨ ¬ validate_date_string d = true ∨
      isFailureOutcome net = true)
    (hmiss : lruLookup (clearIfExpired s now).memo (t, d) = none) :
    (get_12m_return_stooq_cached t d net).1 = ReturnResult.absent ∧
    (get_return s now t d net).2.1 = ReturnResult.absent := by
  have hc := compute_absent_of_failure t d net h
  refine ⟨hc, ?_⟩
  rw [get_return_miss s now t d net hmiss]
  exact hc

/-- Witness for C8: a non-success response status yields the absent
quadruple on otherwise valid inputs, on a fresh state. -/
theorem failures_become_absent_results_witness :
    isFailureOutcome FetchOutcome.badStatus = true ∧
    (get_return ⟨4, 0, []⟩ 0 "spy.us" "2024-05-01"
      FetchOutcome.badStatus).2.1 = ReturnResult.absent :=
  ⟨by decide, (failures_become_absent_results "spy.us" "2024-05-01"
    FetchOutcome.badStatus ⟨4, 0, []⟩ 0 (Or.inr (Or.inr (by decide))) rfl).2⟩

/-- C9 counterexample: the claim that each of the five fetch failure
conditions maps to a distinct reported outcome is false: a response
missing the price column and an empty result set are two different
failure conditions handled by the same source branch, with the same
report and the same call result. -/
theorem fetch_failures_not_distinct_counterexample :
    reportedTag FetchOutcome.missingPriceColumn =
      reportedTag (FetchOutcome.parsed []) ∧
    FetchOutcome.missingPriceColumn ≠ FetchOutcome.parsed [] ∧
    get_12m_return_stooq_cached "spy.us" "2024-05-01"
        FetchOutcome.missingPriceColumn =
      get_12m_return_stooq_cached "spy.us" "2024-05-01"
        (FetchOutcome.parsed []) := by
  refine ⟨rfl, by decide, by decide⟩

/-- C9 (amended): each of the five fetch failure conditions is reported
and non-fatal, yielding the fully absent quadruple; but the conditions
map onto only two distinct reported outcomes: transport error, bad
status and unparseable body all fall through to the generic
`except Exception` handler (curl_cffi raises its own exception classes,
never the caught `requests.exceptions.RequestException`, so that
handler is dead), while the missing price column shares the
`df.empty or missing column` branch with the empty result set. -/
theorem fetch_failures_reported_non_fatal (net : FetchOutcome)
    (h : isFailureOutcome net = true) :
    (reportedTag net).isSome = true ∧
    (∀ t d, (get_12m_return_stooq_cached t d net).1 = ReturnResult.absent) ∧
    reportedTag FetchOutcome.networkError =
      reportedTag FetchOutcome.badStatus ∧
    reportedTag FetchOutcome.badStatus =
      reportedTag FetchOutcome.unparseableBody ∧
    reportedTag FetchOutcome.missingPriceColumn =
      reportedTag (FetchOutcome.parsed []) ∧
    reportedTag FetchOutcome.networkError ≠
      reportedTag FetchOutcome.missingPriceColumn := by
  refine ⟨?_, fun t d => compute_absent_of_failure t d net (Or.inr (Or.inr h)),
    rfl, rfl, rfl, by decide⟩
  cases net with
  | networkError => rfl
  | badStatus => rfl
  | unparseableBody => rfl
  | missingPriceColumn => rfl
  | parsed rows =>
    have he : rows.isEmpty = true := h
    simp [reportedTag, he]

/-- Witness for the amended C9: the unparseable body condition. -/
theorem fetch_failures_reported_non_fatal_witness :
    isFailureOutcome FetchOutcome.unparseableBody = true ∧
    (reportedTag FetchOutcome.unparseableBody).isSome = true ∧
    (get_12m_return_stooq_cached "eimi.uk" "2024-05-01"
      FetchOutcome.unparseableBody).1 = ReturnResult.absent :=
  have h := fetch_failures_reported_non_fatal FetchOutcome.unparseableBody
    (by decide)
  ⟨by decide, h.1, h.2.1 "eimi.uk" "2024-05-01"⟩

/-- C10: the memo stores whatever quadruple the first computation for a
key produced, including the fully absent one coming from a validation
failure, a fetch failure or an empty window; a second call for the same
key within the TTL returns that same fully absent result with no fetch,
even when the network environment has changed in the meantime, so failed
lookups are not retried before the next full clear. -/
theorem absent_results_cached_without_retry (s0 : FetcherState)
    (t1 t2 : Nat) (tk d : String) (net1 net2 : FetchOutcome)
    (h : ¬ ((get_return s0 t1 tk d net1).1.cacheTTL <
        t2 - (get_return s0 t1 tk d net1).1.lastReset))
    (habs : (get_return s0 t1 tk d net1).2.1 = ReturnResult.absent) :
    (get_return (get_return s0 t1 tk d net1).1 t2 tk d net2).2.1 =
      ReturnResult.absent ∧
    (get_return (get_return s0 t1 tk d net1).1 t2 tk d net2).2.2 = false := by
  obtain ⟨rest, hm⟩ := get_return_memo_head s0 t1 tk d net1
  have hclear : clearIfExpired (get_return s0 t1 tk d net1).1 t2 =
      (get_return s0 t1 tk d net1).1 := by
    unfold clearIfExpired
    rw [if_neg h]
  have hl : lruLookup
      (clearIfExpired (get_return s0 t1 tk d net1).1 t2).memo (tk, d) =
      some ((get_return s0 t1 tk d net1).2.1) := by
    rw [hclear, hm]
    exact lruLookup_cons_self _ _ _
  rw [get_return_hit _ _ _ _ net2 _ hl]
  exact ⟨habs, rfl⟩

/-- Witness for C10: a validation-failure result is cached; the second
call inside the TTL returns the same absent quadruple without fetching,
although the network would now return rows. -/
theorem absent_results_cached_without_retry_witness :
    ¬ ((get_return ⟨4, 0, []⟩ 0 "ABC$" "2024-05-01"
        FetchOutcome.networkError).1.cacheTTL <
      1 - (get_return ⟨4, 0, []⟩ 0 "ABC$" "2024-05-01"
        FetchOutcome.networkError).1.lastReset) ∧
    (get_return (get_return ⟨4, 0, []⟩ 0 "ABC$" "2024-05-01"
        FetchOutcome.networkError).1 1 "ABC$" "2024-05-01"
        (FetchOutcome.parsed [⟨⟨2024, 1, 2⟩, 100⟩])).2.1 =
      ReturnResult.absent ∧
    (get_return (get_return ⟨4, 0, []⟩ 0 "ABC$" "2024-05-01"
        FetchOutcome.networkError).1 1 "ABC$" "2024-05-01"
        (FetchOutcome.parsed [⟨⟨2024, 1, 2⟩, 100⟩])).2.2 = false :=
  have h := absent_results_cached_without_retry ⟨4, 0, []⟩ 0 1 "ABC$"
    "2024-05-01" FetchOutcome.networkError
    (FetchOutcome.parsed [⟨⟨2024, 1, 2⟩, 100⟩]) (by decide) (by decide)
  ⟨by decide, h.1, h.2⟩

end GemStrategy
